import Mathlib

/-!
Shallow embedding of `util/udt_util.h` (user-defined timestamp size handling
during WAL recovery), together with models of the parts that the header only
declares (their implementation file and the fixed-width coding helpers are not
part of the sources and are modelled from the specification).

Conventions used throughout:
* byte strings (keys, values, encoded records) are lists of byte values;
* machine-integer casts are explicit `% 2 ^ w` reductions written as numerals;
* a C++ `assert` firing is modelled as `Option.none` (a fatal abort, not a
  recoverable status);
* `Status` is modelled as `Except String`, the payload being the status text;
* `std::unordered_map<uint32_t, size_t>` is modelled as an association list
  queried with `List.lookup`;
* a `std::unique_ptr<WriteBatch>` is modelled as `Option WriteBatch`, `none`
  standing for the null (for instance moved-from) pointer.
-/

namespace RocksDB

/-- Byte strings (keys, values, encoded records) as lists of byte values. -/
abbrev Bytes := List Nat

/-- Modelled from the spec: `PutFixed32` of `util/coding.h` (absent from the
sources); per spec sections 4.1 and 6 it appends the fixed-width 4-byte
little-endian encoding of `v`. -/
def putFixed32 (dst : Bytes) (v : Nat) : Bytes :=
  dst ++ [v % 256, v / 256 % 256, v / 65536 % 256, v / 16777216 % 256]

/-- Modelled from the spec: `PutFixed16` of `util/coding.h` (absent from the
sources); appends the fixed-width 2-byte little-endian encoding of `v`. -/
def putFixed16 (dst : Bytes) (v : Nat) : Bytes :=
  dst ++ [v % 256, v / 256 % 256]

/-- Modelled from the spec: `GetFixed32` of `util/coding.h` (absent from the
sources); reads a fixed-width 4-byte little-endian value from the front of the
slice and advances it, failing when fewer than 4 bytes remain. -/
def getFixed32 : Bytes → Option (Nat × Bytes)
  | b0 :: b1 :: b2 :: b3 :: rest =>
      some (b0 + b1 * 256 + b2 * 65536 + b3 * 16777216, rest)
  | _ => none

/-- Modelled from the spec: `GetFixed16` of `util/coding.h` (absent from the
sources); reads a fixed-width 2-byte little-endian value from the front of the
slice and advances it, failing when fewer than 2 bytes remain. -/
def getFixed16 : Bytes → Option (Nat × Bytes)
  | b0 :: b1 :: rest => some (b0 + b1 * 256, rest)
  | _ => none

/-- Per-entry width of the timestamp size record: 4 bytes for the column
family id plus 2 bytes for the timestamp size (udt_util.h line 78). -/
def kSizePerColumnFamily : Nat := 4 + 2

/-- Embedding of `UserDefinedTimestampSizeRecord::EncodeTo` (udt_util.h lines
36-43).  For each `(cf_id, ts_sz)` pair in order it asserts `ts_sz != 0`
(`none` models the assert firing) and appends `PutFixed32(cf_id)` followed by
`PutFixed16(static_cast<uint16_t>(ts_sz))`; the uint16_t cast is the explicit
`% 65536`. -/
def EncodeTo : List (Nat × Nat) → Bytes → Option Bytes
  | [], dst => some dst
  | (cf_id, ts_sz) :: rest, dst =>
      if ts_sz = 0 then none
      else EncodeTo rest (putFixed16 (putFixed32 dst cf_id) (ts_sz % 65536))

/-- Corruption message built by `DecodeFrom` when the record length is not a
multiple of `kSizePerColumnFamily` (udt_util.h lines 48-51). -/
def lengthErrorMessage (total_size : Nat) : String :=
  "User-defined timestamp size record length: " ++ toString total_size ++
    " is not a multiple of " ++ toString kSizePerColumnFamily ++ "\n"

/-- Loop body of `DecodeFrom` (udt_util.h lines 54-62): reads `n` consecutive
`(GetFixed32, GetFixed16)` groups, appending each decoded pair to the record
accumulated so far (the C++ `emplace_back`). -/
def decodeLoop : Nat → Bytes → List (Nat × Nat) → Except String (List (Nat × Nat))
  | 0, _, acc => .ok acc
  | n + 1, src, acc =>
      match getFixed32 src with
      | none => .error "Error decoding user-defined timestamp size record entry"
      | some (cf_id, src1) =>
          match getFixed16 src1 with
          | none =>
              .error "Error decoding user-defined timestamp size record entry"
          | some (ts_sz, src2) => decodeLoop n src2 (acc ++ [(cf_id, ts_sz)])

/-- Embedding of `UserDefinedTimestampSizeRecord::DecodeFrom` (udt_util.h
lines 45-64).  `cf_to_ts_sz` is the pair list the record holds before the
call; the loop appends onto it.  The result is the pair list the record holds
after a successful call. -/
def DecodeFrom (cf_to_ts_sz : List (Nat × Nat)) (src : Bytes) :
    Except String (List (Nat × Nat)) :=
  let total_size := src.length
  if total_size % kSizePerColumnFamily ≠ 0 then
    .error (lengthErrorMessage total_size)
  else decodeLoop (total_size / kSizePerColumnFamily) src cf_to_ts_sz

/-- One mutation of a write batch, the tagged-variant view of the per-kind
callbacks `PutCF`, `DeleteCF`, `SingleDeleteCF`, `DeleteRangeCF`, `MergeCF`
and `PutBlobIndexCF` (udt_util.h lines 117-129). -/
inductive WriteBatchEntry where
  | put (cf : Nat) (key value : Bytes)
  | del (cf : Nat) (key : Bytes)
  | singleDel (cf : Nat) (key : Bytes)
  | delRange (cf : Nat) (begin_key end_key : Bytes)
  | merge (cf : Nat) (key value : Bytes)
  | putBlobIndex (cf : Nat) (key value : Bytes)
deriving DecidableEq, Repr

/-- A write batch as the ordered list of its mutations. -/
abbrev WriteBatch := List WriteBatchEntry

/-- Column family id carried by a mutation. -/
def entryCf : WriteBatchEntry → Nat
  | .put cf _ _ => cf
  | .del cf _ => cf
  | .singleDel cf _ => cf
  | .delRange cf _ _ => cf
  | .merge cf _ _ => cf
  | .putBlobIndex cf _ _ => cf

/-- State of `TimestampRecoveryHandler` (udt_util.h lines 103-172): the two
borrowed maps, the accumulated new batch (`none` models a null unique_ptr),
the validity flag and the changed flag. -/
structure TimestampRecoveryHandler where
  running_ts_sz : List (Nat × Nat)
  record_ts_sz : List (Nat × Nat)
  new_batch : Option WriteBatch
  handler_valid : Bool
  new_batch_diff_from_orig_batch : Bool
deriving DecidableEq, Repr

/-- Modelled from the spec: the `TimestampRecoveryHandler` constructor (its
implementation file is absent from the sources).  Per udt_util.h lines 164-171
the handler starts valid, with an empty fresh batch and the changed flag
false. -/
def mkTimestampRecoveryHandler (running record : List (Nat × Nat)) :
    TimestampRecoveryHandler :=
  { running_ts_sz := running
    record_ts_sz := record
    new_batch := some []
    handler_valid := true
    new_batch_diff_from_orig_batch := false }

/-- Embedding of `TimestampRecoveryHandler::TransferNewBatch` (udt_util.h
lines 145-149): `assert(new_batch_diff_from_orig_batch_)` (a `none` result
models that assert firing), then clear the validity flag and move the batch
out, leaving the handler holding a null pointer. -/
def TransferNewBatch (h : TimestampRecoveryHandler) :
    Option (Option WriteBatch × TimestampRecoveryHandler) :=
  if h.new_batch_diff_from_orig_batch then
    some (h.new_batch, { h with handler_valid := false, new_batch := none })
  else none

/-- Modelled from the spec:
`TimestampRecoveryHandler::ReconcileTimestampDiscrepancy` (implementation file
absent from the sources), following udt_util.h lines 95-102 and spec section
4.2: a dropped column family (no `running_ts_sz` entry) copies the key as is;
otherwise with recorded size defaulting to 0, equal sizes are a no-op,
recorded 0 pads `running` zero bytes, running 0 strips the trailing
`recorded` bytes (setting the changed flag in both rewriting cases), and two
unequal nonzero sizes fail with InvalidArgument. -/
def ReconcileTimestampDiscrepancy (h : TimestampRecoveryHandler) (cf : Nat)
    (key : Bytes) : Except String (Bytes × TimestampRecoveryHandler) :=
  match h.running_ts_sz.lookup cf with
  | none => .ok (key, h)
  | some running =>
      let recorded := (h.record_ts_sz.lookup cf).getD 0
      if recorded = running then .ok (key, h)
      else if recorded = 0 then
        .ok (key ++ List.replicate running 0,
          { h with new_batch_diff_from_orig_batch := true })
      else if running = 0 then
        .ok (key.take (key.length - recorded),
          { h with new_batch_diff_from_orig_batch := true })
      else
        .error "Unable to resolve timestamp size inconsistency encountered by WriteBatch processing."

/-- Append one mutation to the accumulated new batch. -/
def appendToNewBatch (h : TimestampRecoveryHandler) (e : WriteBatchEntry) :
    TimestampRecoveryHandler :=
  { h with new_batch := h.new_batch.map (fun b => b ++ [e]) }

/-- Modelled from the spec: the per-kind callbacks of
`TimestampRecoveryHandler` (implementation file absent from the sources).
Each callback reconciles every user key the mutation carries — a DeleteRange
carries two, reconciled independently — and appends the mutation with the
rewritten key(s) and unchanged payload to the new batch. -/
def handleEntry (h : TimestampRecoveryHandler) :
    WriteBatchEntry → Except String TimestampRecoveryHandler
  | .put cf key value =>
      (ReconcileTimestampDiscrepancy h cf key).map
        (fun p => appendToNewBatch p.2 (.put cf p.1 value))
  | .del cf key =>
      (ReconcileTimestampDiscrepancy h cf key).map
        (fun p => appendToNewBatch p.2 (.del cf p.1))
  | .singleDel cf key =>
      (ReconcileTimestampDiscrepancy h cf key).map
        (fun p => appendToNewBatch p.2 (.singleDel cf p.1))
  | .delRange cf begin_key end_key =>
      match ReconcileTimestampDiscrepancy h cf begin_key with
      | .error msg => .error msg
      | .ok p =>
          match ReconcileTimestampDiscrepancy p.2 cf end_key with
          | .error msg => .error msg
          | .ok q => .ok (appendToNewBatch q.2 (.delRange cf p.1 q.1))
  | .merge cf key value =>
      (ReconcileTimestampDiscrepancy h cf key).map
        (fun p => appendToNewBatch p.2 (.merge cf p.1 value))
  | .putBlobIndex cf key value =>
      (ReconcileTimestampDiscrepancy h cf key).map
        (fun p => appendToNewBatch p.2 (.putBlobIndex cf p.1 value))

/-- Modelled from the spec: `WriteBatch::Iterate` driving the recovery handler
(spec section 4.3): the callbacks are invoked once per mutation in original
order, and the first non-OK status aborts the traversal. -/
def iterateBatch (h : TimestampRecoveryHandler) :
    WriteBatch → Except String TimestampRecoveryHandler
  | [] => .ok h
  | e :: rest =>
      match handleEntry h e with
      | .error msg => .error msg
      | .ok h1 => iterateBatch h1 rest

/-- Mode for checking and handling timestamp size inconsistency (udt_util.h
lines 176-188). -/
inductive TimestampSizeConsistencyMode where
  | kVerifyConsistency
  | kReconcileInconsistency
deriving DecidableEq, Repr

/-- Modelled from the spec: the verification-mode per-column-family check
(spec sections 4.4 and open question of section 9): a dropped column family is
ignored, otherwise the recorded size (defaulting to 0 when absent) must equal
the running size. -/
def cfConsistent (running record : List (Nat × Nat)) (cf : Nat) : Bool :=
  match running.lookup cf with
  | none => true
  | some r => (record.lookup cf).getD 0 == r

/-- Modelled from the spec: `HandleWriteBatchTimestampSizeDifference`
(udt_util.h lines 190-217, implementation file absent from the sources).
The result is `none` when an assert aborts the call; otherwise it is the pair
of the returned status and the content of the output slot after the call
(`none` meaning the slot was left untouched).  Verification mode checks every
referenced column family and builds no batch; reconciliation mode runs the
recovery handler over the batch and, when the traversal completes, transfers
the new batch into the output slot unconditionally via `TransferNewBatch`. -/
def HandleWriteBatchTimestampSizeDifference (batch : WriteBatch)
    (running record : List (Nat × Nat)) (mode : TimestampSizeConsistencyMode) :
    Option (Except String Unit × Option WriteBatch) :=
  match mode with
  | .kVerifyConsistency =>
      if batch.all (fun e => cfConsistent running record (entryCf e)) then
        some (.ok (), none)
      else
        some (.error "WriteBatch contains timestamp size inconsistency.", none)
  | .kReconcileInconsistency =>
      match iterateBatch (mkTimestampRecoveryHandler running record) batch with
      | .error msg => some (.error msg, none)
      | .ok h =>
          match TransferNewBatch h with
          | none => none
          | some p => some (.ok (), p.1)

/-- Six bytes emitted by `EncodeTo` for one record entry: the 4-byte fixed
encoding of the column family id followed by the 2-byte fixed encoding of the
timestamp size reduced modulo 65536. -/
def encEntry (cf ts : Nat) : Bytes :=
  putFixed32 [] cf ++ putFixed16 [] (ts % 65536)

/-- Concatenated per-entry encodings of a pair list. -/
def encPairs : List (Nat × Nat) → Bytes
  | [] => []
  | p :: rest => encEntry p.1 p.2 ++ encPairs rest

/-- Little-endian value of the 4-byte group starting at offset `off`. -/
def fixed32At (src : Bytes) (off : Nat) : Nat :=
  match src.drop off with
  | b0 :: b1 :: b2 :: b3 :: _ => b0 + b1 * 256 + b2 * 65536 + b3 * 16777216
  | _ => 0

/-- Little-endian value of the 2-byte group starting at offset `off`. -/
def fixed16At (src : Bytes) (off : Nat) : Nat :=
  match src.drop off with
  | b0 :: b1 :: _ => b0 + b1 * 256
  | _ => 0

theorem encodeTo_eq_encPairs (pairs : List (Nat × Nat)) :
    ∀ dst : Bytes, (∀ p ∈ pairs, p.2 ≠ 0) →
    EncodeTo pairs dst = some (dst ++ encPairs pairs) := by
  induction pairs with
  | nil => intro dst _; simp [EncodeTo, encPairs]
  | cons p rest ih =>
      intro dst hnz
      obtain ⟨cf, ts⟩ := p
      have hts : ts ≠ 0 := hnz (cf, ts) (by simp)
      simp only [EncodeTo, if_neg hts]
      rw [ih _ (fun q hq => hnz q (by simp [hq]))]
      simp [putFixed32, putFixed16, encEntry, encPairs, List.append_assoc]

theorem encPairs_length (pairs : List (Nat × Nat)) :
    (encPairs pairs).length = 6 * pairs.length := by
  induction pairs with
  | nil => simp [encPairs]
  | cons p rest ih =>
      simp [encPairs, encEntry, putFixed32, putFixed16, ih]
      ring

theorem decodeLoop_encPairs (pairs : List (Nat × Nat)) :
    ∀ acc : List (Nat × Nat), (∀ p ∈ pairs, p.1 < 4294967296) →
    decodeLoop pairs.length (encPairs pairs) acc =
      .ok (acc ++ pairs.map (fun p => (p.1, p.2 % 65536))) := by
  induction pairs with
  | nil => intro acc _; simp [decodeLoop, encPairs]
  | cons p rest ih =>
      intro acc hlt
      obtain ⟨cf, ts⟩ := p
      have hcf : cf < 4294967296 := hlt (cf, ts) (by simp)
      simp only [encPairs, encEntry, putFixed32, putFixed16, List.nil_append,
        List.cons_append, List.length_cons]
      simp only [decodeLoop, getFixed32, getFixed16]
      have h32 : cf % 256 + cf / 256 % 256 * 256 + cf / 65536 % 256 * 65536 +
          cf / 16777216 % 256 * 16777216 = cf := by omega
      have h16 : ts % 65536 % 256 + ts % 65536 / 256 % 256 * 256 = ts % 65536 := by
        omega
      rw [h32, h16, ih _ (fun q hq => hlt q (by simp [hq]))]
      simp

theorem decodeFrom_encPairs (pairs : List (Nat × Nat))
    (h : ∀ p ∈ pairs, p.1 < 4294967296) :
    DecodeFrom [] (encPairs pairs) =
      .ok (pairs.map (fun p => (p.1, p.2 % 65536))) := by
  simp only [DecodeFrom, encPairs_length, kSizePerColumnFamily]
  rw [if_neg (by omega)]
  have hdiv : 6 * pairs.length / (4 + 2) = pairs.length := by omega
  rw [hdiv, decodeLoop_encPairs pairs [] h]
  simp

theorem map_mod_eq_self (pairs : List (Nat × Nat))
    (h : ∀ p ∈ pairs, p.2 ≤ 65535) :
    pairs.map (fun p => (p.1, p.2 % 65536)) = pairs := by
  induction pairs with
  | nil => rfl
  | cons p rest ih =>
      obtain ⟨cf, ts⟩ := p
      have hts : ts % 65536 = ts := by
        have := h (cf, ts) (by simp)
        omega
      simp only [List.map_cons, hts]
      rw [ih (fun q hq => h q (by simp [hq]))]

theorem decodeLoop_acc (n : Nat) :
    ∀ (src : Bytes) (acc : List (Nat × Nat)),
    decodeLoop n src acc = (decodeLoop n src []).map (fun q => acc ++ q) := by
  induction n with
  | zero => intro src acc; simp [decodeLoop, Except.map]
  | succ n ih =>
      intro src acc
      simp only [decodeLoop]
      cases hg : getFixed32 src with
      | none => simp [Except.map]
      | some p =>
          obtain ⟨cf, src1⟩ := p
          dsimp only
          cases hg2 : getFixed16 src1 with
          | none => simp [Except.map]
          | some q =>
              obtain ⟨ts, src2⟩ := q
              dsimp only
              rw [ih src2 (acc ++ [(cf, ts)]), ih src2 ([] ++ [(cf, ts)])]
              cases decodeLoop n src2 [] <;> simp [Except.map]

theorem drop_add_six (k b0 b1 b2 b3 b4 b5 : Nat) (rest : Bytes) :
    List.drop (k + 6) (b0 :: b1 :: b2 :: b3 :: b4 :: b5 :: rest) =
      List.drop k rest := by
  rw [Nat.add_comm k 6, ← List.drop_drop]
  rfl

theorem fixed32At_shift (k b0 b1 b2 b3 b4 b5 : Nat) (rest : Bytes) :
    fixed32At (b0 :: b1 :: b2 :: b3 :: b4 :: b5 :: rest) (k + 6) =
      fixed32At rest k := by
  unfold fixed32At
  rw [drop_add_six]

theorem fixed16At_shift (k b0 b1 b2 b3 b4 b5 : Nat) (rest : Bytes) :
    fixed16At (b0 :: b1 :: b2 :: b3 :: b4 :: b5 :: rest) (k + 6) =
      fixed16At rest k := by
  unfold fixed16At
  rw [drop_add_six]

theorem decodeLoop_ok_of_length (n : Nat) :
    ∀ (src : Bytes) (acc : List (Nat × Nat)), 6 * n ≤ src.length →
    ∃ ps, decodeLoop n src acc = .ok (acc ++ ps) ∧ ps.length = n ∧
      ∀ i, i < n →
        ps.getD i (0, 0) = (fixed32At src (6 * i), fixed16At src (6 * i + 4)) := by
  induction n with
  | zero =>
      intro src acc _
      exact ⟨[], by simp [decodeLoop], rfl, fun i hi => absurd hi (by omega)⟩
  | succ n ih =>
      intro src acc hlen
      rcases src with _ | ⟨b0, src⟩; · simp at hlen
      rcases src with _ | ⟨b1, src⟩; · simp at hlen; omega
      rcases src with _ | ⟨b2, src⟩; · simp at hlen; omega
      rcases src with _ | ⟨b3, src⟩; · simp at hlen; omega
      rcases src with _ | ⟨b4, src⟩; · simp at hlen; omega
      rcases src with _ | ⟨b5, rest⟩; · simp at hlen; omega
      have hrest : 6 * n ≤ rest.length := by simp at hlen; omega
      obtain ⟨ps, hps, hlen', hidx⟩ :=
        ih rest (acc ++ [(b0 + b1 * 256 + b2 * 65536 + b3 * 16777216, b4 + b5 * 256)])
          hrest
      refine ⟨(b0 + b1 * 256 + b2 * 65536 + b3 * 16777216, b4 + b5 * 256) :: ps,
        ?_, by simp [hlen'], ?_⟩
      · simp only [decodeLoop, getFixed32, getFixed16]
        rw [hps]
        simp
      · intro i hi
        cases i with
        | zero => rfl
        | succ j =>
            have hj : j < n := by omega
            simp only [List.getD_cons_succ]
            rw [hidx j hj,
              show 6 * (j + 1) = 6 * j + 6 by ring,
              show 6 * j + 6 + 4 = 6 * j + 4 + 6 by ring,
              fixed32At_shift, fixed16At_shift]

theorem reconcile_error_of_fatal (h : TimestampRecoveryHandler) (cf : Nat)
    (key : Bytes) (r : Nat) (hrun : h.running_ts_sz.lookup cf = some r)
    (hrec : 0 < (h.record_ts_sz.lookup cf).getD 0) (hr : 0 < r)
    (hne : (h.record_ts_sz.lookup cf).getD 0 ≠ r) :
    ReconcileTimestampDiscrepancy h cf key =
      .error "Unable to resolve timestamp size inconsistency encountered by WriteBatch processing." := by
  simp only [ReconcileTimestampDiscrepancy, hrun]
  rw [if_neg hne, if_neg (by omega), if_neg (by omega)]

theorem reconcile_fields (h : TimestampRecoveryHandler) (cf : Nat) (key : Bytes)
    (p : Bytes × TimestampRecoveryHandler)
    (hok : ReconcileTimestampDiscrepancy h cf key = .ok p) :
    p.2.running_ts_sz = h.running_ts_sz ∧ p.2.record_ts_sz = h.record_ts_sz := by
  unfold ReconcileTimestampDiscrepancy at hok
  cases hl : h.running_ts_sz.lookup cf with
  | none =>
      rw [hl] at hok
      have := Except.ok.inj hok
      rw [← this]
      exact ⟨rfl, rfl⟩
  | some r =>
      rw [hl] at hok
      dsimp only at hok
      split at hok
      · have := Except.ok.inj hok
        rw [← this]
        exact ⟨rfl, rfl⟩
      · split at hok
        · have := Except.ok.inj hok
          rw [← this]
          exact ⟨rfl, rfl⟩
        · split at hok
          · have := Except.ok.inj hok
            rw [← this]
            exact ⟨rfl, rfl⟩
          · exact absurd hok (by simp)

theorem handleEntry_error_of_fatal (h : TimestampRecoveryHandler)
    (e : WriteBatchEntry) (r : Nat)
    (hrun : h.running_ts_sz.lookup (entryCf e) = some r)
    (hrec : 0 < (h.record_ts_sz.lookup (entryCf e)).getD 0) (hr : 0 < r)
    (hne : (h.record_ts_sz.lookup (entryCf e)).getD 0 ≠ r) :
    ∃ msg, handleEntry h e = .error msg := by
  cases e <;>
    simp only [entryCf] at hrun hrec hne <;>
    exact ⟨"Unable to resolve timestamp size inconsistency encountered by WriteBatch processing.", by
      simp [handleEntry, reconcile_error_of_fatal h _ _ r hrun hrec hr hne,
        Except.map]⟩

theorem handleEntry_fields (h : TimestampRecoveryHandler) (e : WriteBatchEntry)
    (h1 : TimestampRecoveryHandler) (hok : handleEntry h e = .ok h1) :
    h1.running_ts_sz = h.running_ts_sz ∧ h1.record_ts_sz = h.record_ts_sz := by
  cases e with
  | delRange cf bk ek =>
      simp only [handleEntry] at hok
      cases hra : ReconcileTimestampDiscrepancy h cf bk with
      | error msg => rw [hra] at hok; exact absurd hok (by simp)
      | ok p =>
          rw [hra] at hok
          dsimp only at hok
          cases hrb : ReconcileTimestampDiscrepancy p.2 cf ek with
          | error msg => rw [hrb] at hok; exact absurd hok (by simp)
          | ok q =>
              rw [hrb] at hok
              dsimp only at hok
              have hq := Except.ok.inj hok
              obtain ⟨ha, hb⟩ := reconcile_fields h cf bk p hra
              obtain ⟨hc, hd⟩ := reconcile_fields p.2 cf ek q hrb
              rw [← hq]
              exact ⟨by simp [appendToNewBatch, hc, ha],
                by simp [appendToNewBatch, hd, hb]⟩
  | put cf key value =>
      simp only [handleEntry] at hok
      cases hra : ReconcileTimestampDiscrepancy h cf key with
      | error msg => rw [hra] at hok; exact absurd hok (by simp [Except.map])
      | ok p =>
          rw [hra] at hok
          simp only [Except.map] at hok
          have hq := Except.ok.inj hok
          obtain ⟨ha, hb⟩ := reconcile_fields h cf key p hra
          rw [← hq]
          exact ⟨by simp [appendToNewBatch, ha], by simp [appendToNewBatch, hb]⟩
  | del cf key =>
      simp only [handleEntry] at hok
      cases hra : ReconcileTimestampDiscrepancy h cf key with
      | error msg => rw [hra] at hok; exact absurd hok (by simp [Except.map])
      | ok p =>
          rw [hra] at hok
          simp only [Except.map] at hok
          have hq := Except.ok.inj hok
          obtain ⟨ha, hb⟩ := reconcile_fields h cf key p hra
          rw [← hq]
          exact ⟨by simp [appendToNewBatch, ha], by simp [appendToNewBatch, hb]⟩
  | singleDel cf key =>
      simp only [handleEntry] at hok
      cases hra : ReconcileTimestampDiscrepancy h cf key with
      | error msg => rw [hra] at hok; exact absurd hok (by simp [Except.map])
      | ok p =>
          rw [hra] at hok
          simp only [Except.map] at hok
          have hq := Except.ok.inj hok
          obtain ⟨ha, hb⟩ := reconcile_fields h cf key p hra
          rw [← hq]
          exact ⟨by simp [appendToNewBatch, ha], by simp [appendToNewBatch, hb]⟩
  | merge cf key value =>
      simp only [handleEntry] at hok
      cases hra : ReconcileTimestampDiscrepancy h cf key with
      | error msg => rw [hra] at hok; exact absurd hok (by simp [Except.map])
      | ok p =>
          rw [hra] at hok
          simp only [Except.map] at hok
          have hq := Except.ok.inj hok
          obtain ⟨ha, hb⟩ := reconcile_fields h cf key p hra
          rw [← hq]
          exact ⟨by simp [appendToNewBatch, ha], by simp [appendToNewBatch, hb]⟩
  | putBlobIndex cf key value =>
      simp only [handleEntry] at hok
      cases hra : ReconcileTimestampDiscrepancy h cf key with
      | error msg => rw [hra] at hok; exact absurd hok (by simp [Except.map])
      | ok p =>
          rw [hra] at hok
          simp only [Except.map] at hok
          have hq := Except.ok.inj hok
          obtain ⟨ha, hb⟩ := reconcile_fields h cf key p hra
          rw [← hq]
          exact ⟨by simp [appendToNewBatch, ha], by simp [appendToNewBatch, hb]⟩

theorem iterateBatch_error_of_fatal (batch : WriteBatch) :
    ∀ (h : TimestampRecoveryHandler) (e : WriteBatchEntry), e ∈ batch →
    ∀ r : Nat, h.running_ts_sz.lookup (entryCf e) = some r →
    0 < (h.record_ts_sz.lookup (entryCf e)).getD 0 → 0 < r →
    (h.record_ts_sz.lookup (entryCf e)).getD 0 ≠ r →
    ∃ msg, iterateBatch h batch = .error msg := by
  induction batch with
  | nil => intro h e he; cases he
  | cons e0 rest ih =>
      intro h e he r hrun hrec hr hne
      rcases List.mem_cons.mp he with rfl | hmem
      · obtain ⟨msg, hmsg⟩ := handleEntry_error_of_fatal h e r hrun hrec hr hne
        exact ⟨msg, by simp [iterateBatch, hmsg]⟩
      · cases hh : handleEntry h e0 with
        | error msg => exact ⟨msg, by simp [iterateBatch, hh]⟩
        | ok h1 =>
            obtain ⟨hruns, hrecs⟩ := handleEntry_fields h e0 h1 hh
            obtain ⟨msg, hmsg⟩ := ih h1 e hmem r (by rw [hruns]; exact hrun)
              (by rw [hrecs]; exact hrec) hr (by rw [hrecs]; exact hne)
            exact ⟨msg, by simp [iterateBatch, hh, hmsg]⟩

/-- C1: the claim fails on the code.  For a source batch in which every
referenced column family has equal recorded and running timestamp sizes, the
recovery handler rebuilds a content-identical batch and its changed flag stays
false; but `TransferNewBatch` (udt_util.h line 146) asserts
`new_batch_diff_from_orig_batch_`, so the reconcile-mode call dies on that
assert (modelled as `none`) instead of succeeding and transferring the fresh
batch into the output slot as the claim and the header documentation (lines
89-93) state. -/
theorem C1_consistent_batch_transfer_aborts :
    iterateBatch (mkTimestampRecoveryHandler [(0, 0)] []) [.put 0 [107] [118]] =
      .ok { running_ts_sz := [(0, 0)], record_ts_sz := [],
            new_batch := some [.put 0 [107] [118]], handler_valid := true,
            new_batch_diff_from_orig_batch := false } ∧
    TransferNewBatch
      { running_ts_sz := [(0, 0)], record_ts_sz := [],
        new_batch := some [.put 0 [107] [118]], handler_valid := true,
        new_batch_diff_from_orig_batch := false } = none ∧
    HandleWriteBatchTimestampSizeDifference [.put 0 [107] [118]] [(0, 0)] []
      .kReconcileInconsistency = none :=
  ⟨rfl, rfl, rfl⟩

/-- C2: the claim fails on the code.  A first `TransferNewBatch` on a handler
whose batch changed does return the accumulated batch and clears
`handler_valid_`, but the assert in `TransferNewBatch` (udt_util.h line 146)
checks `new_batch_diff_from_orig_batch_` — which the transfer leaves true —
rather than `handler_valid_`, so a second call passes the assert and silently
returns the moved-from null batch instead of failing loudly. -/
theorem C2_double_transfer_not_caught :
    iterateBatch (mkTimestampRecoveryHandler [(1, 2)] []) [.put 1 [9] [5]] =
      .ok { running_ts_sz := [(1, 2)], record_ts_sz := [],
            new_batch := some [.put 1 [9, 0, 0] [5]], handler_valid := true,
            new_batch_diff_from_orig_batch := true } ∧
    TransferNewBatch
      { running_ts_sz := [(1, 2)], record_ts_sz := [],
        new_batch := some [.put 1 [9, 0, 0] [5]], handler_valid := true,
        new_batch_diff_from_orig_batch := true } =
      some (some [.put 1 [9, 0, 0] [5]],
        { running_ts_sz := [(1, 2)], record_ts_sz := [], new_batch := none,
          handler_valid := false, new_batch_diff_from_orig_batch := true }) ∧
    TransferNewBatch
      { running_ts_sz := [(1, 2)], record_ts_sz := [],
        new_batch := none, handler_valid := false,
        new_batch_diff_from_orig_batch := true } =
      some (none,
        { running_ts_sz := [(1, 2)], record_ts_sz := [], new_batch := none,
          handler_valid := false, new_batch_diff_from_orig_batch := true }) :=
  ⟨rfl, rfl, rfl⟩

/-- C3: for every sequence of (cf_id, ts_sz) pairs with each cf_id a 32-bit
value and each ts_sz strictly positive and at most 65535, decoding the bytes
produced by `EncodeTo` into a freshly constructed record succeeds and yields
exactly the original pairs in the same order. -/
theorem C3_roundtrip (pairs : List (Nat × Nat))
    (h : ∀ p ∈ pairs, p.1 < 4294967296 ∧ 0 < p.2 ∧ p.2 ≤ 65535) :
    ∃ bytes, EncodeTo pairs [] = some bytes ∧ DecodeFrom [] bytes = .ok pairs := by
  refine ⟨encPairs pairs,
    encodeTo_eq_encPairs pairs [] (fun p hp => by have := h p hp; omega), ?_⟩
  rw [decodeFrom_encPairs pairs (fun p hp => (h p hp).1)]
  rw [map_mod_eq_self pairs (fun p hp => (h p hp).2.2)]

theorem C3_roundtrip_witness :
    (∀ p ∈ [((7 : Nat), (3 : Nat)), (4294967295, 65535)],
      p.1 < 4294967296 ∧ 0 < p.2 ∧ p.2 ≤ 65535) ∧
    ∃ bytes, EncodeTo [(7, 3), (4294967295, 65535)] [] = some bytes ∧
      DecodeFrom [] bytes = .ok [(7, 3), (4294967295, 65535)] :=
  ⟨by decide, C3_roundtrip _ (by decide)⟩

/-- C4: `DecodeFrom` returns a Corruption error exactly when the input length
is not a multiple of 6; the error message contains the actual byte length and
the required multiple 6; and on a multiple of 6 it succeeds with length / 6
pairs read as consecutive 4-byte/2-byte little-endian groups in input
order. -/
theorem C4_decode_length_check (src : Bytes) :
    (src.length % 6 ≠ 0 →
      DecodeFrom [] src = .error (lengthErrorMessage src.length) ∧
      lengthErrorMessage src.length =
        "User-defined timestamp size record length: " ++ toString src.length ++
          " is not a multiple of " ++ "6" ++ "\n") ∧
    (src.length % 6 = 0 →
      ∃ ps, DecodeFrom [] src = .ok ps ∧ ps.length = src.length / 6 ∧
        ∀ i, i < ps.length →
          ps.getD i (0, 0) = (fixed32At src (6 * i), fixed16At src (6 * i + 4))) := by
  constructor
  · intro hne
    constructor
    · simp only [DecodeFrom, kSizePerColumnFamily]
      rw [if_pos (by omega)]
    · rfl
  · intro hz
    obtain ⟨ps, hps, hlen, hidx⟩ :=
      decodeLoop_ok_of_length (src.length / 6) src [] (by omega)
    refine ⟨ps, ?_, by rw [hlen], fun i hi => hidx i (by omega)⟩
    simp only [DecodeFrom, kSizePerColumnFamily]
    rw [if_neg (by omega)]
    have hdiv : src.length / (4 + 2) = src.length / 6 := by norm_num
    rw [hdiv, hps]
    simp

theorem C4_decode_length_check_witness :
    ((DecodeFrom [] [0] = .error (lengthErrorMessage 1) ∧
      lengthErrorMessage 1 =
        "User-defined timestamp size record length: " ++ toString 1 ++
          " is not a multiple of " ++ "6" ++ "\n")) ∧
    (∃ ps, DecodeFrom [] [1, 0, 0, 0, 5, 0] = .ok ps ∧ ps.length = 6 / 6 ∧
      ∀ i, i < ps.length →
        ps.getD i (0, 0) =
          (fixed32At [1, 0, 0, 0, 5, 0] (6 * i),
            fixed16At [1, 0, 0, 0, 5, 0] (6 * i + 4))) :=
  ⟨(C4_decode_length_check [0]).1 (by decide),
    (C4_decode_length_check [1, 0, 0, 0, 5, 0]).2 (by decide)⟩

/-- C5 counterexample: the claim that every record produced by a successful
`DecodeFrom` on arbitrary bytes holds only strictly positive timestamp sizes
is false: decoding six zero bytes succeeds and yields the pair (0, 0) whose
timestamp size is 0. -/
theorem C5_counterexample :
    ¬ ∀ (src : Bytes) (ps : List (Nat × Nat)),
        DecodeFrom [] src = .ok ps → ∀ p ∈ ps, 0 < p.2 := by
  intro hall
  have h0 : DecodeFrom [] [0, 0, 0, 0, 0, 0] = .ok [(0, 0)] := rfl
  exact Nat.lt_irrefl 0 (hall _ _ h0 (0, 0) (by simp))

/-- C5 (amended): positivity of timestamp sizes is an encoder-side invariant,
not one enforced by the decoder: `EncodeTo` succeeds (its per-entry assert
passes) exactly when every timestamp size in the record is strictly positive,
while `DecodeFrom` accepts zero sizes. -/
theorem C5_encode_requires_positive (pairs : List (Nat × Nat)) (dst : Bytes) :
    (EncodeTo pairs dst).isSome = true ↔ ∀ p ∈ pairs, 0 < p.2 := by
  induction pairs generalizing dst with
  | nil => simp [EncodeTo]
  | cons p rest ih =>
      obtain ⟨cf, ts⟩ := p
      by_cases h : ts = 0
      · simp [EncodeTo, h]
      · simp [EncodeTo, h, ih, Nat.pos_of_ne_zero h]

/-- C6: the per-key reconciliation follows the five-row rule table: equal
sizes (both zero or both the same nonzero value) leave the key unchanged;
recorded zero with running positive appends running-size zero bytes; recorded
positive with running zero removes the last recorded-size bytes (given the
key is at least that long); and two unequal nonzero sizes give an
InvalidArgument error. -/
theorem C6_reconcile_table (h : TimestampRecoveryHandler) (cf : Nat)
    (key : Bytes) (running recorded : Nat)
    (hrun : h.running_ts_sz.lookup cf = some running)
    (hrec : (h.record_ts_sz.lookup cf).getD 0 = recorded) :
    (recorded = 0 → running = 0 →
      ReconcileTimestampDiscrepancy h cf key = .ok (key, h)) ∧
    (recorded = 0 → 0 < running →
      ReconcileTimestampDiscrepancy h cf key =
        .ok (key ++ List.replicate running 0,
          { h with new_batch_diff_from_orig_batch := true })) ∧
    (0 < recorded → running = 0 → recorded ≤ key.length →
      ReconcileTimestampDiscrepancy h cf key =
        .ok (key.take (key.length - recorded),
          { h with new_batch_diff_from_orig_batch := true }) ∧
      key.take (key.length - recorded) ++ key.drop (key.length - recorded) = key ∧
      (key.drop (key.length - recorded)).length = recorded) ∧
    (0 < recorded → recorded = running →
      ReconcileTimestampDiscrepancy h cf key = .ok (key, h)) ∧
    (0 < recorded → 0 < running → recorded ≠ running →
      ∃ msg, ReconcileTimestampDiscrepancy h cf key = .error msg) := by
  simp only [ReconcileTimestampDiscrepancy, hrun, hrec]
  refine ⟨?_, ?_, ?_, ?_, ?_⟩
  · intro h0 hR
    rw [if_pos (by omega)]
  · intro h0 hpos
    rw [if_neg (by omega), if_pos h0]
  · intro hpos h0 hle
    rw [if_neg (by omega), if_neg (by omega), if_pos h0]
    exact ⟨rfl, List.take_append_drop _ key, by rw [List.length_drop]; omega⟩
  · intro hpos heq
    rw [if_pos heq]
  · intro hpR hpr hne
    rw [if_neg hne, if_neg (by omega), if_neg (by omega)]
    exact ⟨_, rfl⟩

theorem C6_reconcile_table_witness :
    ReconcileTimestampDiscrepancy (mkTimestampRecoveryHandler [(1, 2)] []) 1 [9] =
      .ok ([9, 0, 0], { mkTimestampRecoveryHandler [(1, 2)] [] with
        new_batch_diff_from_orig_batch := true }) :=
  (C6_reconcile_table (mkTimestampRecoveryHandler [(1, 2)] []) 1 [9] 2 0
    (by decide) (by decide)).2.1 rfl (by omega)

/-- C7: when some column family referenced by the batch has nonzero and
unequal recorded and running timestamp sizes, `HandleWriteBatchTimestampSizeDifference`
fails with InvalidArgument in both verification and reconciliation mode, and
the output slot is left untouched. -/
theorem C7_fatal_both_modes (batch : WriteBatch)
    (running record : List (Nat × Nat)) (e : WriteBatchEntry) (r : Nat)
    (he : e ∈ batch)
    (hrun : running.lookup (entryCf e) = some r)
    (hrec : 0 < (record.lookup (entryCf e)).getD 0)
    (hr : 0 < r)
    (hne : (record.lookup (entryCf e)).getD 0 ≠ r) :
    (∃ msg, HandleWriteBatchTimestampSizeDifference batch running record
        .kVerifyConsistency = some (.error msg, none)) ∧
    (∃ msg, HandleWriteBatchTimestampSizeDifference batch running record
        .kReconcileInconsistency = some (.error msg, none)) := by
  constructor
  · refine ⟨"WriteBatch contains timestamp size inconsistency.", ?_⟩
    have hfalse :
        batch.all (fun x => cfConsistent running record (entryCf x)) = false := by
      rw [Bool.eq_false_iff]
      intro htrue
      have hp := List.all_eq_true.mp htrue e he
      simp only [cfConsistent, hrun, beq_iff_eq] at hp
      exact hne hp
    simp [HandleWriteBatchTimestampSizeDifference, hfalse]
  · obtain ⟨msg, hmsg⟩ := iterateBatch_error_of_fatal batch
      (mkTimestampRecoveryHandler running record) e he r hrun hrec hr hne
    exact ⟨msg, by simp [HandleWriteBatchTimestampSizeDifference, hmsg]⟩

theorem C7_fatal_both_modes_witness :
    ((WriteBatchEntry.put 2 [1, 2, 3, 4] [30]) ∈
      ([.put 1 [10] [20], .put 2 [1, 2, 3, 4] [30]] : WriteBatch)) ∧
    (∃ msg, HandleWriteBatchTimestampSizeDifference
        [.put 1 [10] [20], .put 2 [1, 2, 3, 4] [30]] [(1, 1), (2, 5)]
        [(1, 1), (2, 3)] .kVerifyConsistency = some (.error msg, none)) ∧
    (∃ msg, HandleWriteBatchTimestampSizeDifference
        [.put 1 [10] [20], .put 2 [1, 2, 3, 4] [30]] [(1, 1), (2, 5)]
        [(1, 1), (2, 3)] .kReconcileInconsistency = some (.error msg, none)) :=
  ⟨by decide,
    C7_fatal_both_modes [.put 1 [10] [20], .put 2 [1, 2, 3, 4] [30]]
      [(1, 1), (2, 5)] [(1, 1), (2, 3)] (.put 2 [1, 2, 3, 4] [30]) 5
      (by decide) (by decide) (by decide) (by decide) (by decide)⟩

/-- C8: a column family referenced by the batch but absent from the running
map (a dropped column family) contributes no reconciliation decision: the
reconcile step copies its key as is and never fails, every mutation kind with
that column family is copied into the new batch unchanged, and the
verification-mode check treats it as consistent. -/
theorem C8_dropped_cf (h : TimestampRecoveryHandler) (cf : Nat)
    (key begin_key end_key value : Bytes)
    (hdrop : h.running_ts_sz.lookup cf = none) :
    ReconcileTimestampDiscrepancy h cf key = .ok (key, h) ∧
    handleEntry h (.put cf key value) =
      .ok (appendToNewBatch h (.put cf key value)) ∧
    handleEntry h (.del cf key) = .ok (appendToNewBatch h (.del cf key)) ∧
    handleEntry h (.singleDel cf key) =
      .ok (appendToNewBatch h (.singleDel cf key)) ∧
    handleEntry h (.delRange cf begin_key end_key) =
      .ok (appendToNewBatch h (.delRange cf begin_key end_key)) ∧
    handleEntry h (.merge cf key value) =
      .ok (appendToNewBatch h (.merge cf key value)) ∧
    handleEntry h (.putBlobIndex cf key value) =
      .ok (appendToNewBatch h (.putBlobIndex cf key value)) ∧
    cfConsistent h.running_ts_sz h.record_ts_sz cf = true := by
  have hrek : ∀ k : Bytes, ReconcileTimestampDiscrepancy h cf k = .ok (k, h) := by
    intro k
    simp [ReconcileTimestampDiscrepancy, hdrop]
  refine ⟨hrek key, ?_, ?_, ?_, ?_, ?_, ?_, ?_⟩ <;>
    simp [handleEntry, hrek, Except.map, cfConsistent, hdrop]

theorem C8_dropped_cf_witness :
    (mkTimestampRecoveryHandler [(3, 1)] [(5, 9)]).running_ts_sz.lookup 5 =
      none ∧
    ReconcileTimestampDiscrepancy (mkTimestampRecoveryHandler [(3, 1)] [(5, 9)])
        5 [1] =
      .ok ([1], mkTimestampRecoveryHandler [(3, 1)] [(5, 9)]) :=
  ⟨by decide,
    (C8_dropped_cf (mkTimestampRecoveryHandler [(3, 1)] [(5, 9)]) 5 [1] [2] [3]
      [4] (by decide)).1⟩

/-- C9: `DecodeFrom` appends the decoded pairs to whatever pairs the record
already holds: decoding into a record holding P yields P followed by the
pairs a fresh decode of the same bytes yields, so decode-after-encode
reproduces the original only from a freshly constructed record. -/
theorem C9_decode_appends (P : List (Nat × Nat)) (src : Bytes) :
    DecodeFrom P src = (DecodeFrom [] src).map (fun Q => P ++ Q) := by
  simp only [DecodeFrom]
  split
  · simp [Except.map]
  · exact decodeLoop_acc _ src P

/-- C10: `EncodeTo` emits, for every pair, exactly 6 bytes — the 4-byte fixed
encoding of the column family id followed by the 2-byte fixed encoding of the
timestamp size reduced modulo 65536 — so for any size above 65535 only the
low 16 bits are encoded and the encode/decode round trip yields the reduced
value, not the original. -/
theorem C10_encode_mod (pairs : List (Nat × Nat))
    (h : ∀ p ∈ pairs, p.1 < 4294967296 ∧ p.2 ≠ 0) :
    ∃ bytes, EncodeTo pairs [] = some bytes ∧
      bytes = encPairs pairs ∧
      bytes.length = 6 * pairs.length ∧
      DecodeFrom [] bytes = .ok (pairs.map (fun p => (p.1, p.2 % 65536))) ∧
      ∀ p ∈ pairs, 65535 < p.2 → p.2 % 65536 ≠ p.2 :=
  ⟨encPairs pairs, encodeTo_eq_encPairs pairs [] (fun p hp => (h p hp).2), rfl,
    encPairs_length pairs, decodeFrom_encPairs pairs (fun p hp => (h p hp).1),
    fun p _ hgt => by omega⟩

theorem C10_encode_mod_witness :
    (∀ p ∈ [((1 : Nat), (65536 : Nat))], p.1 < 4294967296 ∧ p.2 ≠ 0) ∧
    ∃ bytes, EncodeTo [(1, 65536)] [] = some bytes ∧
      bytes = encPairs [(1, 65536)] ∧
      bytes.length = 6 * 1 ∧
      DecodeFrom [] bytes = .ok [(1, 0)] ∧
      ∀ p ∈ [((1 : Nat), (65536 : Nat))], 65535 < p.2 → p.2 % 65536 ≠ p.2 :=
  ⟨by decide, C10_encode_mod _ (by decide)⟩

end RocksDB
